import Mathlib

/-!
# Verification of the aeonetica networking / ECS / Messenger core

Shallow embedding of the Rust sources:
* `src/engine/src/networking/server_packets.rs` (packet data model),
* `src/client/src/networking/mod.rs` and `src/server/src/networking/mod.rs`
  (transport: send paths, framing, inbox drain),
* `src/server/src/ecs/messaging.rs` (Messenger RPC layer),
* `src/server/src/ecs/mod.rs` (World entity store).

Byte strings are `List Nat` with every element `< 256`.  Machine integers
are `Nat` with explicit bounds where the width matters.  The binary codec
(the `nanoserde` `SerBin`/`DeBin` derive used by the repository) is not part
of the repository sources; its format is modelled from the spec (§4.1):
fixed-width little-endian integers, strings and sequences with a count
field, enums as one discriminant byte followed by the variant payload.
-/

namespace Aeonetica

/-- Byte strings: lists of byte values. -/
abbrev Bytes := List Nat

/-- Well-formed byte string: every element is a byte. -/
def bytesWF (b : Bytes) : Prop := ∀ x ∈ b, x < 256

instance (b : Bytes) : Decidable (bytesWF b) := by
  unfold bytesWF; infer_instance

/-! ## Little-endian fixed-width integers -/

/-- Encode `n` as `w` little-endian bytes (truncating above `256^w`),
as the Rust side does with `to_le_bytes`. -/
def natToLE : Nat → Nat → Bytes
  | 0, _ => []
  | w+1, n => n % 256 :: natToLE w (n / 256)

/-- Read a little-endian byte string back into a `Nat`. -/
def leToNat : Bytes → Nat
  | [] => 0
  | b :: bs => b + 256 * leToNat bs

@[simp] theorem natToLE_length (w n : Nat) : (natToLE w n).length = w := by
  induction w generalizing n with
  | zero => rfl
  | succ w ih => simp [natToLE, ih]

theorem natToLE_mem_lt (w n : Nat) : ∀ x ∈ natToLE w n, x < 256 := by
  induction w generalizing n with
  | zero => simp [natToLE]
  | succ w ih =>
    intro x hx
    simp only [natToLE, List.mem_cons] at hx
    rcases hx with h | h
    · exact h ▸ Nat.mod_lt _ (by norm_num)
    · exact ih _ x h

theorem leToNat_natToLE (w n : Nat) (h : n < 256 ^ w) :
    leToNat (natToLE w n) = n := by
  induction w generalizing n with
  | zero =>
    simp only [pow_zero, Nat.lt_one_iff] at h
    simp [natToLE, leToNat, h]
  | succ w ih =>
    simp only [natToLE, leToNat]
    have hdiv : n / 256 < 256 ^ w := by
      have h2 : 256 ^ (w + 1) = 256 * 256 ^ w := by ring
      rw [h2] at h
      exact Nat.div_lt_of_lt_mul h
    rw [ih _ hdiv]
    omega

/-! ## Byte-exact reads (`read_exact`) -/

/-- Take exactly `k` bytes off the front of `b`; fails when fewer remain,
mirroring `Read::read_exact`. -/
def readExact (k : Nat) (b : Bytes) : Option (Bytes × Bytes) :=
  if k ≤ b.length then some (b.take k, b.drop k) else none

theorem readExact_append (k : Nat) (b rest : Bytes) (h : b.length = k) :
    readExact k (b ++ rest) = some (b, rest) := by
  subst h
  simp [readExact, List.take_left, List.drop_left]

/-! ## Codec primitives

Modelled from the spec: the `nanoserde` `SerBin`/`DeBin` binary codec used
for every packet body is an external crate, absent from the repository
sources.  Per spec §4.1: fixed-width little-endian integers, strings and
sequences carry a count field (a 64-bit length, the Rust `usize`), enums
are one discriminant byte followed by the variant payload, structs are the
concatenation of their fields. -/

/-- 128-bit identifier (`aeonetica_engine::Id`); modelled from the spec:
the `Id` type lives in the engine crate root, absent from `src/`. -/
abbrev Id := Nat

/-- Rust `String` modelled as its UTF-8 byte string. -/
abbrev Str := Bytes

def encU32 (n : Nat) : Bytes := natToLE 4 n
def encU64 (n : Nat) : Bytes := natToLE 8 n
def encU128 (n : Nat) : Bytes := natToLE 16 n

def decU32 (b : Bytes) : Option (Nat × Bytes) :=
  (readExact 4 b).map (fun p => (leToNat p.1, p.2))
def decU64 (b : Bytes) : Option (Nat × Bytes) :=
  (readExact 8 b).map (fun p => (leToNat p.1, p.2))
def decU128 (b : Bytes) : Option (Nat × Bytes) :=
  (readExact 16 b).map (fun p => (leToNat p.1, p.2))

/-- String / byte-vector body: 64-bit count field, then the raw bytes. -/
def encStr (s : Str) : Bytes := encU64 s.length ++ s

def decStr (b : Bytes) : Option (Str × Bytes) := do
  let (n, b) ← decU64 b
  readExact n b

/-- Sequence: 64-bit count field, then each element in order. -/
def encListWith (enc : α → Bytes) (l : List α) : Bytes :=
  encU64 l.length ++ (l.map enc).flatten

/-- Decode exactly `n` elements. -/
def decListN (dec : Bytes → Option (α × Bytes)) : Nat → Bytes → Option (List α × Bytes)
  | 0, b => some ([], b)
  | n+1, b =>
    match dec b with
    | none => none
    | some (x, b) =>
      match decListN dec n b with
      | none => none
      | some (xs, b) => some (x :: xs, b)

def decListWith (dec : Bytes → Option (α × Bytes)) (b : Bytes) :
    Option (List α × Bytes) := do
  let (n, b) ← decU64 b
  decListN dec n b

/-! Round-trip lemmas for the primitives. -/

theorem decU32_append (n : Nat) (rest : Bytes) (h : n < 2 ^ 32) :
    decU32 (encU32 n ++ rest) = some (n, rest) := by
  have : (256 : Nat) ^ 4 = 2 ^ 32 := by norm_num
  rw [decU32, encU32, readExact_append 4 _ rest (natToLE_length 4 n)]
  simp [leToNat_natToLE 4 n (by omega)]

theorem decU64_append (n : Nat) (rest : Bytes) (h : n < 2 ^ 64) :
    decU64 (encU64 n ++ rest) = some (n, rest) := by
  have : (256 : Nat) ^ 8 = 2 ^ 64 := by norm_num
  rw [decU64, encU64, readExact_append 8 _ rest (natToLE_length 8 n)]
  simp [leToNat_natToLE 8 n (by omega)]

theorem decU128_append (n : Nat) (rest : Bytes) (h : n < 2 ^ 128) :
    decU128 (encU128 n ++ rest) = some (n, rest) := by
  have : (256 : Nat) ^ 16 = 2 ^ 128 := by norm_num
  rw [decU128, encU128, readExact_append 16 _ rest (natToLE_length 16 n)]
  simp [leToNat_natToLE 16 n (by omega)]

theorem decStr_append (s : Str) (rest : Bytes) (h : s.length < 2 ^ 64) :
    decStr (encStr s ++ rest) = some (s, rest) := by
  rw [decStr, encStr, List.append_assoc, decU64_append s.length _ h]
  simp [readExact_append s.length s rest rfl]

theorem decListN_append (dec : Bytes → Option (α × Bytes)) (enc : α → Bytes)
    (l : List α) (rest : Bytes)
    (h : ∀ x ∈ l, ∀ r, dec (enc x ++ r) = some (x, r)) :
    decListN dec l.length ((l.map enc).flatten ++ rest) = some (l, rest) := by
  induction l with
  | nil => simp [decListN]
  | cons x xs ih =>
    simp only [List.length_cons, List.map_cons, List.flatten_cons, List.append_assoc]
    rw [decListN, h x (List.mem_cons_self x xs)]
    simp only [ih (fun y hy r => h y (List.mem_cons_of_mem x hy) r)]

theorem decListWith_append (dec : Bytes → Option (α × Bytes)) (enc : α → Bytes)
    (l : List α) (rest : Bytes) (hlen : l.length < 2 ^ 64)
    (h : ∀ x ∈ l, ∀ r, dec (enc x ++ r) = some (x, r)) :
    decListWith dec (encListWith enc l ++ rest) = some (l, rest) := by
  rw [decListWith, encListWith, List.append_assoc, decU64_append l.length _ hlen]
  simpa using decListN_append dec enc l rest h

/-! ## Packet data model (`src/engine/src/networking/server_packets.rs`) -/

/-- `NetResult<T, E>`; modelled from the spec: declared in the engine
networking module, absent from `src/`; a tagged Ok/Err union like
`Result`. -/
inductive NetResult (T E : Type) where
  | Ok (t : T)
  | Err (e : E)
deriving DecidableEq

/-- `ServerInfo` (server_packets.rs line 33);
`mods: Vec<(ModName, ModFlags, ZipHash, FileSize)>`. -/
structure ServerInfo where
  server_version : Str
  mod_profile : Str
  mod_version : Str
  mods : List (Str × List Str × Str × Nat)
deriving DecidableEq

/-- `ServerMessage` (server_packets.rs line 17).  The `HashMap<Id, Vec<u8>>`
of `ModMessages` is modelled as its association list in iteration order. -/
inductive ServerMessage where
  | KeepAlive
  | Acknowlege (id : Id)
  | Unregister (s : Str)
  | RegisterResponse (r : NetResult ServerInfo Str)
  | Kick (s : Str)
  | Login (id : Id) (s : Str)
  | Logout (id : Id) (s : Str)
  | Ping (s : Str)
  | Pong (s : Str)
  | RawData (d : Bytes)
  | ModMessages (n : Nat) (m : List (Id × Bytes))
deriving DecidableEq

/-- `ServerPacket` (server_packets.rs line 11). -/
structure ServerPacket where
  conv_id : Id
  message : ServerMessage
deriving DecidableEq

/-! ### Encoding (the derived `SerBin`) -/

/-- One entry of `ServerInfo.mods`: a tuple is the concatenation of its
components. -/
def encModEntry (e : Str × List Str × Str × Nat) : Bytes :=
  encStr e.1 ++ encListWith encStr e.2.1 ++ encStr e.2.2.1 ++ encU64 e.2.2.2

def ServerInfo.serialize_bin (i : ServerInfo) : Bytes :=
  encStr i.server_version ++ encStr i.mod_profile ++ encStr i.mod_version ++
    encListWith encModEntry i.mods

def encNetResult (encT : T → Bytes) (encE : E → Bytes) : NetResult T E → Bytes
  | .Ok t => 0 :: encT t
  | .Err e => 1 :: encE e

/-- One entry of the `ModMessages` map: key then value. -/
def encIdBytes (e : Id × Bytes) : Bytes := encU128 e.1 ++ encStr e.2

def ServerMessage.serialize_bin : ServerMessage → Bytes
  | .KeepAlive => [0]
  | .Acknowlege id => 1 :: encU128 id
  | .Unregister s => 2 :: encStr s
  | .RegisterResponse r =>
      3 :: encNetResult ServerInfo.serialize_bin encStr r
  | .Kick s => 4 :: encStr s
  | .Login id s => 5 :: (encU128 id ++ encStr s)
  | .Logout id s => 6 :: (encU128 id ++ encStr s)
  | .Ping s => 7 :: encStr s
  | .Pong s => 8 :: encStr s
  | .RawData d => 9 :: encStr d
  | .ModMessages n m => 10 :: (encU64 n ++ encListWith encIdBytes m)

def ServerPacket.serialize_bin (p : ServerPacket) : Bytes :=
  encU128 p.conv_id ++ p.message.serialize_bin

/-! ### Decoding (the derived `DeBin`) -/

def decModEntry (b : Bytes) : Option ((Str × List Str × Str × Nat) × Bytes) := do
  let (name, b) ← decStr b
  let (flags, b) ← decListWith decStr b
  let (hash, b) ← decStr b
  let (size, b) ← decU64 b
  pure ((name, flags, hash, size), b)

def decServerInfo (b : Bytes) : Option (ServerInfo × Bytes) := do
  let (sv, b) ← decStr b
  let (mp, b) ← decStr b
  let (mv, b) ← decStr b
  let (mods, b) ← decListWith decModEntry b
  pure (⟨sv, mp, mv, mods⟩, b)

def decNetResult (decT : Bytes → Option (T × Bytes))
    (decE : Bytes → Option (E × Bytes)) : Bytes → Option (NetResult T E × Bytes)
  | [] => none
  | d :: b =>
    if d = 0 then (decT b).map (fun p => (.Ok p.1, p.2))
    else if d = 1 then (decE b).map (fun p => (.Err p.1, p.2))
    else none

def decIdBytes (b : Bytes) : Option ((Id × Bytes) × Bytes) := do
  let (k, b) ← decU128 b
  let (v, b) ← decStr b
  pure ((k, v), b)

def decServerMessage : Bytes → Option (ServerMessage × Bytes)
  | [] => none
  | d :: b =>
    if d = 0 then some (.KeepAlive, b)
    else if d = 1 then (decU128 b).map (fun p => (.Acknowlege p.1, p.2))
    else if d = 2 then (decStr b).map (fun p => (.Unregister p.1, p.2))
    else if d = 3 then
      (decNetResult decServerInfo decStr b).map (fun p => (.RegisterResponse p.1, p.2))
    else if d = 4 then (decStr b).map (fun p => (.Kick p.1, p.2))
    else if d = 5 then do
      let (id, b) ← decU128 b
      let (s, b) ← decStr b
      pure (.Login id s, b)
    else if d = 6 then do
      let (id, b) ← decU128 b
      let (s, b) ← decStr b
      pure (.Logout id s, b)
    else if d = 7 then (decStr b).map (fun p => (.Ping p.1, p.2))
    else if d = 8 then (decStr b).map (fun p => (.Pong p.1, p.2))
    else if d = 9 then (decStr b).map (fun p => (.RawData p.1, p.2))
    else if d = 10 then do
      let (n, b) ← decU64 b
      let (m, b) ← decListWith decIdBytes b
      pure (.ModMessages n m, b)
    else none

def ServerPacket.deserialize_bin (b : Bytes) : Option (ServerPacket × Bytes) := do
  let (cid, b) ← decU128 b
  let (msg, b) ← decServerMessage b
  pure (⟨cid, msg⟩, b)

/-! ### Well-formedness

Bounds that every value built by the Rust type system satisfies: bytes are
bytes, `usize` lengths fit in 64 bits, ids in 128 bits. -/

def StrWF (s : Str) : Prop := bytesWF s ∧ s.length < 2 ^ 64

def IdWF (i : Id) : Prop := i < 2 ^ 128

def ModEntryWF (e : Str × List Str × Str × Nat) : Prop :=
  StrWF e.1 ∧ (∀ f ∈ e.2.1, StrWF f) ∧ e.2.1.length < 2 ^ 64 ∧
    StrWF e.2.2.1 ∧ e.2.2.2 < 2 ^ 64

def ServerInfo.WF (i : ServerInfo) : Prop :=
  StrWF i.server_version ∧ StrWF i.mod_profile ∧ StrWF i.mod_version ∧
    (∀ e ∈ i.mods, ModEntryWF e) ∧ i.mods.length < 2 ^ 64

def NetResultWF (wfT : T → Prop) (wfE : E → Prop) : NetResult T E → Prop
  | .Ok t => wfT t
  | .Err e => wfE e

def ServerMessage.WF : ServerMessage → Prop
  | .KeepAlive => True
  | .Acknowlege id => IdWF id
  | .Unregister s => StrWF s
  | .RegisterResponse r => NetResultWF ServerInfo.WF StrWF r
  | .Kick s => StrWF s
  | .Login id s => IdWF id ∧ StrWF s
  | .Logout id s => IdWF id ∧ StrWF s
  | .Ping s => StrWF s
  | .Pong s => StrWF s
  | .RawData d => StrWF d
  | .ModMessages n m =>
      n < 2 ^ 64 ∧ (∀ e ∈ m, IdWF e.1 ∧ StrWF e.2) ∧ m.length < 2 ^ 64

def ServerPacket.WF (p : ServerPacket) : Prop :=
  IdWF p.conv_id ∧ p.message.WF

instance (s : Str) : Decidable (StrWF s) := by unfold StrWF; infer_instance
instance (i : Id) : Decidable (IdWF i) := by unfold IdWF; infer_instance
instance (e : Str × List Str × Str × Nat) : Decidable (ModEntryWF e) := by
  unfold ModEntryWF; infer_instance
instance (i : ServerInfo) : Decidable i.WF := by
  unfold ServerInfo.WF; infer_instance
instance (r : NetResult ServerInfo Str) :
    Decidable (NetResultWF ServerInfo.WF StrWF r) := by
  cases r <;> (unfold NetResultWF; infer_instance)
instance (m : ServerMessage) : Decidable m.WF := by
  cases m <;> simp only [ServerMessage.WF] <;> infer_instance
instance (p : ServerPacket) : Decidable p.WF := by
  unfold ServerPacket.WF; infer_instance

/-! ### Round-trip lemmas -/

theorem decModEntry_append (e : Str × List Str × Str × Nat) (rest : Bytes)
    (h : ModEntryWF e) :
    decModEntry (encModEntry e ++ rest) = some (e, rest) := by
  obtain ⟨name, flags, hash, size⟩ := e
  obtain ⟨h1, h2, h3, h4, h5⟩ := h
  simp only [decModEntry, encModEntry, List.append_assoc]
  rw [decStr_append _ _ h1.2]
  simp only [Option.bind_eq_bind, Option.some_bind]
  rw [decListWith_append decStr encStr flags _ h3
    (fun x hx r => decStr_append x r (h2 x hx).2)]
  simp only [Option.some_bind]
  rw [decStr_append _ _ h4.2]
  simp only [Option.some_bind]
  rw [decU64_append _ _ h5]
  simp only [Option.some_bind, Option.pure_def]

theorem decServerInfo_append (i : ServerInfo) (rest : Bytes) (h : i.WF) :
    decServerInfo (i.serialize_bin ++ rest) = some (i, rest) := by
  obtain ⟨sv, mp, mv, mods⟩ := i
  obtain ⟨h1, h2, h3, h4, h5⟩ := h
  simp only [decServerInfo, ServerInfo.serialize_bin, List.append_assoc]
  rw [decStr_append _ _ h1.2]
  simp only [Option.bind_eq_bind, Option.some_bind]
  rw [decStr_append _ _ h2.2]
  simp only [Option.some_bind]
  rw [decStr_append _ _ h3.2]
  simp only [Option.some_bind]
  rw [decListWith_append decModEntry encModEntry mods _ h5
    (fun x hx r => decModEntry_append x r (h4 x hx))]
  simp only [Option.some_bind, Option.pure_def]

theorem decNetResult_append (r : NetResult ServerInfo Str) (rest : Bytes)
    (h : NetResultWF ServerInfo.WF StrWF r) :
    decNetResult decServerInfo decStr
      (encNetResult ServerInfo.serialize_bin encStr r ++ rest) = some (r, rest) := by
  cases r with
  | Ok t =>
    simp only [encNetResult, List.cons_append, decNetResult, if_pos rfl]
    rw [decServerInfo_append t rest h]
    rfl
  | Err e =>
    simp only [encNetResult, List.cons_append, decNetResult]
    norm_num
    rw [decStr_append e rest h.2]

theorem decIdBytes_append (e : Id × Bytes) (rest : Bytes)
    (h : IdWF e.1 ∧ StrWF e.2) :
    decIdBytes (encIdBytes e ++ rest) = some (e, rest) := by
  obtain ⟨k, v⟩ := e
  simp only [decIdBytes, encIdBytes, List.append_assoc]
  rw [decU128_append _ _ h.1]
  simp only [Option.bind_eq_bind, Option.some_bind]
  rw [decStr_append _ _ h.2.2]
  simp only [Option.some_bind, Option.pure_def]

theorem decServerMessage_append (m : ServerMessage) (rest : Bytes) (h : m.WF) :
    decServerMessage (m.serialize_bin ++ rest) = some (m, rest) := by
  cases m with
  | KeepAlive => rfl
  | Acknowlege id =>
    simp only [ServerMessage.serialize_bin, List.cons_append, decServerMessage]
    norm_num
    rw [decU128_append _ _ h]
  | Unregister s =>
    simp only [ServerMessage.serialize_bin, List.cons_append, decServerMessage]
    norm_num
    rw [decStr_append _ _ h.2]
  | RegisterResponse r =>
    simp only [ServerMessage.serialize_bin, List.cons_append, decServerMessage]
    norm_num
    rw [decNetResult_append r rest h]
  | Kick s =>
    simp only [ServerMessage.serialize_bin, List.cons_append, decServerMessage]
    norm_num
    rw [decStr_append _ _ h.2]
  | Login id s =>
    simp only [ServerMessage.serialize_bin, List.cons_append, decServerMessage,
      List.append_assoc]
    norm_num
    rw [decU128_append _ _ h.1]
    simp only [Option.bind_eq_bind, Option.some_bind]
    rw [decStr_append _ _ h.2.2]
    rfl
  | Logout id s =>
    simp only [ServerMessage.serialize_bin, List.cons_append, decServerMessage,
      List.append_assoc]
    norm_num
    rw [decU128_append _ _ h.1]
    simp only [Option.bind_eq_bind, Option.some_bind]
    rw [decStr_append _ _ h.2.2]
    rfl
  | Ping s =>
    simp only [ServerMessage.serialize_bin, List.cons_append, decServerMessage]
    norm_num
    rw [decStr_append _ _ h.2]
  | Pong s =>
    simp only [ServerMessage.serialize_bin, List.cons_append, decServerMessage]
    norm_num
    rw [decStr_append _ _ h.2]
  | RawData d =>
    simp only [ServerMessage.serialize_bin, List.cons_append, decServerMessage]
    norm_num
    rw [decStr_append _ _ h.2]
  | ModMessages n mm =>
    simp only [ServerMessage.serialize_bin, List.cons_append, decServerMessage,
      List.append_assoc]
    norm_num
    rw [decU64_append _ _ h.1]
    simp only [Option.bind_eq_bind, Option.some_bind]
    rw [decListWith_append decIdBytes encIdBytes mm _ h.2.2
      (fun x hx r => decIdBytes_append x r (h.2.1 x hx))]
    rfl

/-- Full round trip for a server packet. -/
theorem deserialize_serialize (p : ServerPacket) (rest : Bytes) (h : p.WF) :
    ServerPacket.deserialize_bin (p.serialize_bin ++ rest) = some (p, rest) := by
  obtain ⟨cid, msg⟩ := p
  simp only [ServerPacket.deserialize_bin, ServerPacket.serialize_bin,
    List.append_assoc]
  rw [decU128_append _ _ h.1]
  simp only [Option.bind_eq_bind, Option.some_bind]
  rw [decServerMessage_append _ _ h.2]
  simp only [Option.some_bind, Option.pure_def]

/-! ## Reliable-channel framing
(`src/client/src/networking/mod.rs`, `NetworkClient::start` tcp reader
thread, lines 47-59, and `NetworkClient::send`, `SendMode::Safe` arm,
lines 86-96) -/

/-- The bytes `send` writes for one packet on the reliable stream:
`(data.len() as u32).to_le_bytes()` then the encoded bytes. -/
def frameOf (p : ServerPacket) : Bytes :=
  encU32 p.serialize_bin.length ++ p.serialize_bin

/-- The reliable stream produced by sending `ps` in order. -/
def framesOf (ps : List ServerPacket) : Bytes := (ps.map frameOf).flatten

theorem readExact_some (k : Nat) (b x r : Bytes)
    (h : readExact k b = some (x, r)) : k ≤ b.length ∧ r.length = b.length - k := by
  unfold readExact at h
  split at h
  · cases h
    simp [List.length_drop]
    omega
  · cases h

/-- One iteration of the tcp reader loop: read a 4-byte little-endian
count, read exactly that many bytes, decode the frame.  `none` when the
stream has run out of delivered bytes; otherwise the decoded packet (or
`none` inside, for a logged-and-skipped malformed frame) and the rest of
the stream. -/
def readFrame (b : Bytes) : Option (Option ServerPacket × Bytes) :=
  match readExact 4 b with
  | none => none
  | some (szb, b1) =>
    match readExact (leToNat szb) b1 with
    | none => none
    | some (frame, b2) =>
      some ((ServerPacket.deserialize_bin frame).map Prod.fst, b2)

theorem readFrame_length (b : Bytes) (o : Option ServerPacket) (r : Bytes)
    (h : readFrame b = some (o, r)) : r.length < b.length := by
  unfold readFrame at h
  split at h
  · cases h
  · rename_i szb b1 h4
    split at h
    · cases h
    · rename_i frame b2 hsz
      cases h
      have g4 := readExact_some 4 b szb b1 h4
      have gsz := readExact_some (leToNat szb) b1 frame _ hsz
      omega

/-- The tcp reader loop (client `start`, lines 47-59): frames decoded from
the delivered bytes are appended to the inbox in order; a frame that fails
to decode is logged and skipped. -/
def readFrames (b : Bytes) : List ServerPacket :=
  match h : readFrame b with
  | none => []
  | some (o, b2) => o.toList ++ readFrames b2
  termination_by b.length
  decreasing_by exact readFrame_length b o b2 h

theorem readFrames_step (b : Bytes) (o : Option ServerPacket) (r : Bytes)
    (h : readFrame b = some (o, r)) :
    readFrames b = o.toList ++ readFrames r := by
  rw [readFrames.eq_def]
  split
  · rename_i heq; rw [h] at heq; cases heq
  · rename_i o' r' heq
    rw [h] at heq
    cases heq
    rfl

theorem readFrames_stop (b : Bytes) (h : readFrame b = none) :
    readFrames b = [] := by
  rw [readFrames.eq_def]
  split
  · rfl
  · rename_i o' r' heq; rw [h] at heq; cases heq

theorem readFrame_frameOf (p : ServerPacket) (rest : Bytes) (hwf : p.WF)
    (hl : p.serialize_bin.length < 2 ^ 32) :
    readFrame (frameOf p ++ rest) = some (some p, rest) := by
  have e1 : readExact 4 (frameOf p ++ rest)
      = some (natToLE 4 p.serialize_bin.length, p.serialize_bin ++ rest) := by
    rw [frameOf, encU32, List.append_assoc]
    exact readExact_append 4 _ _ (natToLE_length 4 _)
  have e2 : leToNat (natToLE 4 p.serialize_bin.length) = p.serialize_bin.length :=
    leToNat_natToLE 4 _ (by
      have h4 : (256 : Nat) ^ 4 = 2 ^ 32 := by norm_num
      omega)
  have e3 : readExact p.serialize_bin.length (p.serialize_bin ++ rest)
      = some (p.serialize_bin, rest) := readExact_append _ _ _ rfl
  unfold readFrame
  rw [e1]
  dsimp only
  rw [e2, e3]
  dsimp only
  have e4 : ServerPacket.deserialize_bin p.serialize_bin = some (p, []) := by
    simpa using deserialize_serialize p [] hwf
  rw [e4]
  rfl

theorem readFrames_frames (ps : List ServerPacket)
    (hwf : ∀ p ∈ ps, p.WF) (hlen : ∀ p ∈ ps, p.serialize_bin.length < 2 ^ 32) :
    readFrames (framesOf ps) = ps := by
  induction ps with
  | nil => exact readFrames_stop [] rfl
  | cons p ps ih =>
    rw [framesOf, List.map_cons, List.flatten_cons]
    rw [readFrames_step _ (some p) _
      (readFrame_frameOf p _ (hwf p (List.mem_cons_self p ps))
        (hlen p (List.mem_cons_self p ps)))]
    rw [← framesOf, ih (fun q hq => hwf q (List.mem_cons_of_mem p hq))
      (fun q hq => hlen q (List.mem_cons_of_mem p hq))]
    rfl

/-! ## Claim C5 and C6 theorems -/

/-- C5: for every wire-codec value constructible by the type system — in
particular every `ServerPacket` with any `ServerMessage` variant — decoding
the encoding yields the value back: `decode(encode(x)) == x` (with the
whole input consumed). -/
theorem C5_codec_roundtrip (p : ServerPacket) (h : p.WF) :
    ServerPacket.deserialize_bin p.serialize_bin = some (p, []) := by
  simpa using deserialize_serialize p [] h

theorem C5_codec_roundtrip_witness :
    (ServerPacket.mk 7 (.Login 3 [104, 105])).WF ∧
      ServerPacket.deserialize_bin
          (ServerPacket.mk 7 (.Login 3 [104, 105])).serialize_bin =
        some (ServerPacket.mk 7 (.Login 3 [104, 105]), []) :=
  ⟨by decide, C5_codec_roundtrip _ (by decide)⟩

/-- C6: for every sequence of `N` packets sent on the reliable channel the
writer emits, per packet, a 4-byte little-endian count holding exactly the
number of following encoded bytes; and the reader, consuming the
concatenated stream — however it is split into chunks — decodes exactly
`N` packets in send order. -/
theorem C6_reliable_framing (ps : List ServerPacket) (chunks : List Bytes)
    (hwf : ∀ p ∈ ps, p.WF)
    (hlen : ∀ p ∈ ps, p.serialize_bin.length < 2 ^ 32)
    (hch : chunks.flatten = framesOf ps) :
    (∀ p ∈ ps, (encU32 p.serialize_bin.length).length = 4 ∧
        leToNat (encU32 p.serialize_bin.length) = p.serialize_bin.length) ∧
      readFrames chunks.flatten = ps ∧
      (readFrames chunks.flatten).length = ps.length := by
  have hr : readFrames chunks.flatten = ps := by
    rw [hch]; exact readFrames_frames ps hwf hlen
  refine ⟨fun p hp => ⟨natToLE_length 4 _, ?_⟩, hr, by rw [hr]⟩
  exact leToNat_natToLE 4 _ (by
    have h4 : (256 : Nat) ^ 4 = 2 ^ 32 := by norm_num
    have := hlen p hp
    omega)

theorem C6_reliable_framing_witness :
    (∀ p ∈ [ServerPacket.mk 1 .KeepAlive, ServerPacket.mk 2 (.Ping [97])], p.WF) ∧
      ((framesOf [ServerPacket.mk 1 .KeepAlive,
          ServerPacket.mk 2 (.Ping [97])]).map (fun x => [x])).flatten =
        framesOf [ServerPacket.mk 1 .KeepAlive, ServerPacket.mk 2 (.Ping [97])] ∧
      readFrames (((framesOf [ServerPacket.mk 1 .KeepAlive,
          ServerPacket.mk 2 (.Ping [97])]).map (fun x => [x])).flatten) =
        [ServerPacket.mk 1 .KeepAlive, ServerPacket.mk 2 (.Ping [97])] :=
  have h := C6_reliable_framing
    [ServerPacket.mk 1 .KeepAlive, ServerPacket.mk 2 (.Ping [97])]
    ((framesOf [ServerPacket.mk 1 .KeepAlive,
        ServerPacket.mk 2 (.Ping [97])]).map (fun x => [x]))
    (by decide) (by decide) (by decide)
  ⟨by decide, by decide, h.2.1⟩

/-! ## Transport send paths
(`src/client/src/networking/mod.rs` `NetworkClient::send`, lines 73-99;
`src/server/src/networking/mod.rs` `NetworkServer::send`/`send_raw`,
lines 66-86) -/

/-- Delivery mode; modelled from the spec: declared in the engine
networking module, absent from `src/`.  Quick = unreliable datagram,
Safe = reliable stream. -/
inductive SendMode where
  | Quick
  | Safe
deriving DecidableEq

/-- Modelled from the spec: `MAX_PACKET_SIZE` is declared in the engine
networking module, absent from `src/`; the spec fixes no numeric value
("a fixed constant"), so a representative datagram bound is used.  Every
theorem below depends only on comparisons against it. -/
def MAX_PACKET_SIZE : Nat := 4096

/-- Client-side error severity; modelled from the spec: the client-era
`aeonetica_engine::error` module (`Error`, `Fatality`) is absent from
`src/`.  The oversize rejection constructs
`Error::new(NetworkError(..), Fatality::WARN, false)`. -/
inductive Fatality where
  | WARN
  | FATAL
deriving DecidableEq

/-- Client-side error value: kind, severity and the `fatal : bool` flag of
`Error::new`; message text is not modelled (no claim concerns it). -/
structure CError where
  isNetworkError : Bool
  fatality : Fatality
  fatal : Bool
deriving DecidableEq

/-- `ClientMessage`; modelled from the spec (§6): the engine's
client_packets.rs is absent from `src/`. -/
inductive ClientMessage where
  | Login
  | Logout
  | Ping (s : Str)
  | Pong (s : Str)
  | RawData (d : Bytes)
  | ModMessage (entity_id : Id) (function_id : Id) (data : Bytes)
deriving DecidableEq

/-- `ClientPacket`; modelled from the spec (§6). -/
structure ClientPacket where
  client_id : Id
  conv_id : Id
  message : ClientMessage
deriving DecidableEq

def ClientMessage.serialize_bin : ClientMessage → Bytes
  | .Login => [0]
  | .Logout => [1]
  | .Ping s => 2 :: encStr s
  | .Pong s => 3 :: encStr s
  | .RawData d => 4 :: encStr d
  | .ModMessage eid fid d => 5 :: (encU128 eid ++ encU128 fid ++ encStr d)

def ClientPacket.serialize_bin (p : ClientPacket) : Bytes :=
  encU128 p.client_id ++ encU128 p.conv_id ++ p.message.serialize_bin

/-- A socket operation performed (or queued on a spawned sender thread)
by a send call. -/
inductive SocketWrite where
  | udpSend (data : Bytes)
  | tcpWrite (data : Bytes)
deriving DecidableEq

/-- Observable outcome of one `NetworkClient::send` call: the returned
`ErrorResult` (`none` = `Ok(())`), the socket writes attempted, and how
many error-log entries were emitted. -/
structure SendOutcome where
  result : Option CError
  writes : List SocketWrite
  logs : Nat
deriving DecidableEq

/-- `NetworkClient::send` (client networking/mod.rs lines 73-99).
`tcpW1fails`/`tcpW2fails` say whether the two reliable-stream
`write_all` calls fail; their errors are logged and swallowed
(`let _ = ... .map_err(|e| e.log())`). -/
def NetworkClient.send (packet : ClientPacket) (mode : SendMode)
    (tcpW1fails tcpW2fails : Bool) : SendOutcome :=
  let data := packet.serialize_bin
  match mode with
  | .Quick =>
    if MAX_PACKET_SIZE < data.length then
      { result := some ⟨true, .WARN, false⟩, writes := [], logs := 0 }
    else
      { result := none, writes := [.udpSend data], logs := 0 }
  | .Safe =>
    { result := none,
      writes := [.tcpWrite (encU32 data.length), .tcpWrite data],
      logs := (if tcpW1fails then 1 else 0) + (if tcpW2fails then 1 else 0) }

/-- Server-side error kind (`AET`, engine error.rs line 47); message
strings are not modelled. -/
inductive AETKind where
  | ValueError
  | DataError
  | IOError
  | NetworkError
  | ModError
  | ModConflict
deriving DecidableEq

/-- Outcome of a server send: returned result (`none` = `Ok(())`), socket
writes, log entries emitted at the point of failure. -/
structure SrvSendOutcome where
  result : Option AETKind
  writes : List SocketWrite
  logs : Nat
deriving DecidableEq

/-- `NetworkServer::send_raw` (server networking/mod.rs lines 74-86),
generic in the packet type being serialized: oversize datagrams are
rejected with a `NetworkError` before any I/O; otherwise the datagram is
handed to a spawned sender thread. -/
def NetworkServer.send_rawP (enc : π → Bytes) (packet : π) : SrvSendOutcome :=
  let data := enc packet
  if MAX_PACKET_SIZE < data.length then
    { result := some .NetworkError, writes := [], logs := 0 }
  else
    { result := none, writes := [.udpSend data], logs := 0 }

def NetworkServer.send_raw (packet : ServerPacket) : SrvSendOutcome :=
  NetworkServer.send_rawP ServerPacket.serialize_bin packet

/-- `NetworkServer::send` (server networking/mod.rs lines 66-72): look the
client up in `clients`; unknown ids produce an `Err(NetworkError(...))`
whose construction emits no log entry. -/
def NetworkServer.sendP (enc : π → Bytes) (clients : List Id) (client_id : Id)
    (packet : π) : SrvSendOutcome :=
  if clients.contains client_id then NetworkServer.send_rawP enc packet
  else { result := some .NetworkError, writes := [], logs := 0 }

/-- C2: an unreliable (Quick) send of a packet whose encoding exceeds
`MAX_PACKET_SIZE` returns a non-fatal (`Fatality::WARN`, `fatal = false`)
error and performs no socket write — on the client and, symmetrically, for
the server's `send_raw`; a packet whose encoding is within the bound never
produces the oversize error. -/
theorem C2_oversize_rejection (p : ClientPacket) (sp : ServerPacket)
    (w1 w2 : Bool) :
    (MAX_PACKET_SIZE < p.serialize_bin.length →
      NetworkClient.send p .Quick w1 w2 =
        { result := some ⟨true, .WARN, false⟩, writes := [], logs := 0 }) ∧
    (p.serialize_bin.length ≤ MAX_PACKET_SIZE →
      ∀ mode, (NetworkClient.send p mode w1 w2).result = none) ∧
    (MAX_PACKET_SIZE < sp.serialize_bin.length →
      NetworkServer.send_raw sp =
        { result := some .NetworkError, writes := [], logs := 0 }) ∧
    (sp.serialize_bin.length ≤ MAX_PACKET_SIZE →
      (NetworkServer.send_raw sp).result = none) := by
  refine ⟨fun hbig => ?_, fun hsmall mode => ?_, fun hbig => ?_, fun hsmall => ?_⟩
  · simp [NetworkClient.send, hbig]
  · cases mode <;> simp [NetworkClient.send, Nat.not_lt.mpr hsmall]
  · simp [NetworkServer.send_raw, NetworkServer.send_rawP, hbig]
  · simp [NetworkServer.send_raw, NetworkServer.send_rawP, Nat.not_lt.mpr hsmall]

theorem rawData_serialize_length (cid conv : Id) (d : Bytes) :
    (ClientPacket.mk cid conv (.RawData d)).serialize_bin.length = 41 + d.length := by
  simp [ClientPacket.serialize_bin, ClientMessage.serialize_bin, encStr,
    encU64, encU128]
  omega

theorem C2_oversize_rejection_witness :
    (MAX_PACKET_SIZE <
        (ClientPacket.mk 1 2 (.RawData (List.replicate 4200 0))).serialize_bin.length) ∧
      NetworkClient.send (ClientPacket.mk 1 2 (.RawData (List.replicate 4200 0)))
          .Quick false false =
        { result := some ⟨true, .WARN, false⟩, writes := [], logs := 0 } ∧
      ((ClientPacket.mk 3 4 .Login).serialize_bin.length ≤ MAX_PACKET_SIZE) ∧
      (NetworkClient.send (ClientPacket.mk 3 4 .Login) .Quick false false).result
        = none :=
  have hbig : MAX_PACKET_SIZE <
      (ClientPacket.mk 1 2 (.RawData (List.replicate 4200 0))).serialize_bin.length := by
    rw [rawData_serialize_length, List.length_replicate]
    decide
  have h1 := C2_oversize_rejection (ClientPacket.mk 1 2 (.RawData (List.replicate 4200 0)))
    (ServerPacket.mk 0 .KeepAlive) false false
  have h2 := C2_oversize_rejection (ClientPacket.mk 3 4 .Login)
    (ServerPacket.mk 0 .KeepAlive) false false
  ⟨hbig, h1.1 hbig, by decide, h2.2.1 (by decide) .Quick⟩

/-- C10: a reliable (Safe) client send performs no size check and returns
`Ok(())` unconditionally — both stream writes are attempted and their
failures only logged — and an error result is reachable only in Quick
mode. -/
theorem C10_safe_unconditional_ok (p : ClientPacket) (w1 w2 : Bool) :
    (NetworkClient.send p .Safe w1 w2).result = none ∧
    (NetworkClient.send p .Safe w1 w2).writes =
      [.tcpWrite (encU32 p.serialize_bin.length), .tcpWrite p.serialize_bin] ∧
    (NetworkClient.send p .Safe w1 w2).logs =
      (if w1 then 1 else 0) + (if w2 then 1 else 0) ∧
    (∀ mode v1 v2, (NetworkClient.send p mode v1 v2).result ≠ none →
      mode = SendMode.Quick) := by
  refine ⟨rfl, rfl, rfl, fun mode v1 v2 h => ?_⟩
  cases mode with
  | Quick => rfl
  | Safe => exact absurd rfl h

theorem C10_safe_unconditional_ok_witness :
    (NetworkClient.send (ClientPacket.mk 3 4 .Login) .Safe true false).result
        = none ∧
      (NetworkClient.send (ClientPacket.mk 3 4 .Login) .Safe true false).writes =
        [.tcpWrite (encU32 (ClientPacket.mk 3 4 .Login).serialize_bin.length),
          .tcpWrite (ClientPacket.mk 3 4 .Login).serialize_bin] ∧
      (NetworkClient.send (ClientPacket.mk 3 4 .Login) .Safe true false).logs =
        (if true then 1 else 0) + (if false then 1 else 0) ∧
      (∀ mode v1 v2,
        (NetworkClient.send (ClientPacket.mk 3 4 .Login) mode v1 v2).result ≠ none →
          mode = SendMode.Quick) :=
  C10_safe_unconditional_ok (ClientPacket.mk 3 4 .Login) true false

/-! ## Messenger RPC layer (`src/server/src/ecs/messaging.rs`)

messaging.rs builds `ServerPacket`s whose `message` uses `ModMessage`,
`AddClientHandle` and `RemoveClientHandle` variants; those variants are not
among the ones in src/engine's server_packets.rs, so their shape is
modelled from the spec (§6). -/

/-- Modelled from the spec: the messaging-era `ServerMessage` variants used
by messaging.rs. -/
inductive MsgServerMessage where
  | ModMessage (entity_id : Id) (function_id : Id) (data : Bytes)
  | AddClientHandle (entity_id : Id) (handle_type : Id)
  | RemoveClientHandle (entity_id : Id)
deriving DecidableEq

/-- Modelled from the spec: the messaging-era server packet
(`conv_id` plus message). -/
structure MsgServerPacket where
  conv_id : Id
  message : MsgServerMessage
deriving DecidableEq

def MsgServerMessage.serialize_bin : MsgServerMessage → Bytes
  | .ModMessage eid fid d => 0 :: (encU128 eid ++ encU128 fid ++ encStr d)
  | .AddClientHandle eid ht => 1 :: (encU128 eid ++ encU128 ht)
  | .RemoveClientHandle eid => 2 :: encU128 eid

def MsgServerPacket.serialize_bin (p : MsgServerPacket) : Bytes :=
  encU128 p.conv_id ++ p.message.serialize_bin

/-- The server transport state a `Messenger` holds a shared reference to:
its `clients` map, modelled by its list of known client ids. -/
structure NetworkServerM where
  clients : List Id
deriving DecidableEq

/-- One send request a `Messenger` hands to the transport. -/
structure Sent where
  target : Id
  packet : MsgServerPacket
  mode : SendMode
deriving DecidableEq

/-- `Messenger` (messaging.rs line 33).  The `receiver_functions` registry
holds arbitrary boxed closures and is modelled separately where a claim
needs it (`receiverClosure` below); the routing state is carried here.
`receivers` is the `HashSet<ClientId>` in iteration order. -/
structure Messenger where
  ns : Option NetworkServerM
  handle_type : Id
  entity_id : Id
  receivers : List Id
deriving DecidableEq

/-- `Messenger::add_client` (messaging.rs lines 97-106).  `conv` is the
fresh conversation id `Id::new()`.  Returns `none` when the code would
panic (`self.ns.as_ref().unwrap()` with `ns == None`; the `&&`
short-circuit means an already-subscribed id never reaches the unwrap),
otherwise the returned bool, the updated messenger and the sends
performed. -/
def Messenger.add_client (m : Messenger) (conv : Id) (id : Id) :
    Option (Bool × Messenger × List Sent) :=
  if m.receivers.contains id then some (false, m, [])
  else match m.ns with
    | none => none
    | some srv =>
      if srv.clients.contains id then
        some (true, { m with receivers := m.receivers ++ [id] },
          [⟨id, ⟨conv, .AddClientHandle m.entity_id m.handle_type⟩, .Safe⟩])
      else some (false, m, [])

/-- `Messenger::call_client_fn` (messaging.rs lines 71-79).  `fid` is the
derived function identifier `type_to_id::<F>()`, `payload` the serialized
argument bytes `message.serialize_bin()`, `convIds i` the fresh
conversation id of the i-th send.  `none` models the panic of
`self.ns.as_ref().unwrap()`, reachable only when the loop body runs at
least once. -/
def Messenger.call_client_fn (m : Messenger) (fid : Id) (payload : Bytes)
    (mode : SendMode) (convIds : Nat → Id) : Option (List Sent) :=
  if m.receivers = [] then some []
  else match m.ns with
    | none => none
    | some _ =>
      some ((m.receivers.enum).map (fun ci =>
        ⟨ci.2, ⟨convIds ci.1, .ModMessage m.entity_id fid payload⟩, mode⟩))

/-- The transport results of one `call_client_fn` invocation: each
requested send is handed to `NetworkServer::send`, whose returned
`Result` the messenger discards (`let _ = ...`).  Gives each send's
result and the total number of log entries emitted. -/
def Messenger.call_client_fn_results (m : Messenger) (fid : Id)
    (payload : Bytes) (mode : SendMode) (convIds : Nat → Id) :
    Option (List (Option AETKind) × Nat) :=
  match m.ns with
  | none => (m.call_client_fn fid payload mode convIds).map (fun _ => ([], 0))
  | some srv =>
    (m.call_client_fn fid payload mode convIds).map (fun sends =>
      (sends.map (fun s =>
          (NetworkServer.sendP MsgServerPacket.serialize_bin srv.clients
            s.target s.packet).result),
        (sends.map (fun s =>
          (NetworkServer.sendP MsgServerPacket.serialize_bin srv.clients
            s.target s.packet).logs)).sum))

/-- C3: with the transport reference installed, `add_client X` returns
`true`, appends `X` to the subscriber set and sends exactly one
`AddClientHandle` notification iff `X` is known to the transport and not
already subscribed; otherwise it returns `false`, changes nothing and
sends nothing.  Consequently two calls in a row leave exactly one entry
for `X` and send exactly one notification. -/
theorem C3_add_client_idempotent (m : Messenger) (srv : NetworkServerM)
    (conv conv2 X : Id) (hns : m.ns = some srv) :
    (srv.clients.contains X = true → m.receivers.contains X = false →
      m.add_client conv X = some (true, { m with receivers := m.receivers ++ [X] },
        [⟨X, ⟨conv, .AddClientHandle m.entity_id m.handle_type⟩, .Safe⟩])) ∧
    (¬ (srv.clients.contains X = true ∧ m.receivers.contains X = false) →
      m.add_client conv X = some (false, m, [])) ∧
    (srv.clients.contains X = true → m.receivers.contains X = false →
      ∃ m1, m.add_client conv X = some (true, m1,
          [⟨X, ⟨conv, .AddClientHandle m.entity_id m.handle_type⟩, .Safe⟩]) ∧
        m1.add_client conv2 X = some (false, m1, []) ∧
        m1.receivers.count X = 1) := by
  refine ⟨fun hk hn => ?_, fun hno => ?_, fun hk hn => ?_⟩
  · have hk' : X ∈ srv.clients := by simpa using hk
    have hn' : X ∉ m.receivers := by simpa using hn
    simp [Messenger.add_client, hns, hk', hn']
  · rcases Bool.eq_false_or_eq_true (m.receivers.contains X) with hn | hn
    · have hn' : X ∈ m.receivers := by simpa using hn
      simp [Messenger.add_client, hn']
    · have hk : srv.clients.contains X = false := by
        rcases Bool.eq_false_or_eq_true (srv.clients.contains X) with h | h
        · exact absurd ⟨h, hn⟩ hno
        · exact h
      have hk' : X ∉ srv.clients := by simpa using hk
      have hn' : X ∉ m.receivers := by simpa using hn
      simp [Messenger.add_client, hns, hk', hn']
  · have hk' : X ∈ srv.clients := by simpa using hk
    have hn' : X ∉ m.receivers := by simpa using hn
    refine ⟨{ m with receivers := m.receivers ++ [X] }, by
      simp [Messenger.add_client, hns, hk', hn'], ?_, ?_⟩
    · have hc : X ∈ m.receivers ++ [X] := by simp
      simp [Messenger.add_client, hc]
    · have h0 : m.receivers.count X = 0 := List.count_eq_zero.mpr hn'
      simp [List.count_append, h0]

theorem C3_add_client_idempotent_witness :
    ((Messenger.mk (some ⟨[5, 6]⟩) 2 1 [6]).ns = some ⟨[5, 6]⟩) ∧
      (([5, 6] : List Id).contains 5 = true) ∧
      (([6] : List Id).contains 5 = false) ∧
      ∃ m1, (Messenger.mk (some ⟨[5, 6]⟩) 2 1 [6]).add_client 9 5 = some (true, m1,
          [⟨5, ⟨9, .AddClientHandle 1 2⟩, .Safe⟩]) ∧
        m1.add_client 10 5 = some (false, m1, []) ∧
        m1.receivers.count 5 = 1 :=
  ⟨rfl, by decide, by decide,
    (C3_add_client_idempotent (Messenger.mk (some ⟨[5, 6]⟩) 2 1 [6]) ⟨[5, 6]⟩
      9 10 5 rfl).2.2 (by decide) (by decide)⟩

/-- C4: one `call_client_fn` invocation on a messenger with `N` subscribers
produces exactly `N` outbound `ModMessage` sends, one per subscriber in
iteration order, all carrying the same entity id, the same derived
function identifier and identical serialized payload bytes, in the
requested mode; with zero subscribers it is a silent no-op, not an
error. -/
theorem C4_call_client_fn_fanout (m : Messenger) (srv : NetworkServerM)
    (fid : Id) (payload : Bytes) (mode : SendMode) (convIds : Nat → Id)
    (hns : m.ns = some srv) :
    ∃ sends, m.call_client_fn fid payload mode convIds = some sends ∧
      sends.length = m.receivers.length ∧
      sends.map Sent.target = m.receivers ∧
      (∀ s ∈ sends, s.packet.message =
          MsgServerMessage.ModMessage m.entity_id fid payload ∧ s.mode = mode) ∧
      (m.receivers = [] → sends = []) := by
  by_cases he : m.receivers = []
  · refine ⟨[], by simp [Messenger.call_client_fn, he], by simp [he], by simp [he],
      by simp, fun _ => rfl⟩
  · refine ⟨(m.receivers.enum).map (fun ci =>
        ⟨ci.2, ⟨convIds ci.1, .ModMessage m.entity_id fid payload⟩, mode⟩),
      by simp [Messenger.call_client_fn, he, hns], ?_, ?_, ?_, fun h => absurd h he⟩
    · simp [List.enum_length]
    · rw [List.map_map]
      exact List.enum_map_snd m.receivers
    · intro s hs
      rcases List.mem_map.mp hs with ⟨ci, _, rfl⟩
      exact ⟨rfl, rfl⟩

theorem C4_call_client_fn_fanout_witness :
    ((Messenger.mk (some ⟨[4, 5, 6]⟩) 2 1 [4, 5, 6]).ns = some ⟨[4, 5, 6]⟩) ∧
      ∃ sends, (Messenger.mk (some ⟨[4, 5, 6]⟩) 2 1 [4, 5, 6]).call_client_fn
          7 [8, 9] .Quick (fun i => i) = some sends ∧
        sends.length = 3 ∧
        sends.map Sent.target = [4, 5, 6] ∧
        (∀ s ∈ sends, s.packet.message = MsgServerMessage.ModMessage 1 7 [8, 9] ∧
          s.mode = SendMode.Quick) :=
  have h := C4_call_client_fn_fanout (Messenger.mk (some ⟨[4, 5, 6]⟩) 2 1 [4, 5, 6])
    ⟨[4, 5, 6]⟩ 7 [8, 9] .Quick (fun i => i) rfl
  ⟨rfl, h.elim (fun sends hs => ⟨sends, hs.1, hs.2.1, hs.2.2.1, hs.2.2.2.1⟩)⟩

/-- C8 as stated is refuted: a messenger whose subscriber set holds client
`5` while the transport knows no clients completes the call (no crash) and
the send to `5` fails with a `NetworkError`, but zero log entries are
emitted — the failure IS silently discarded (`let _ =` drops the `Result`
and `AError::new` does not log). -/
theorem C8_stale_subscriber_counterexample :
    (Messenger.mk (some ⟨[]⟩) 0 1 [5]).call_client_fn_results 9 [1, 2] .Quick
        (fun _ => 0) =
      some ([some AETKind.NetworkError], 0) := by decide

/-- C8 amended: a client in the subscriber set that is no longer known to
the transport does not crash `call_client_fn` — the call completes and the
transport returns a `NetworkError` for that client — but the messenger
discards the error without any log entry (rather than logging the
failure, as the claim states). -/
theorem sendP_logs_zero (enc : π → Bytes) (cl : List Id) (cid : Id) (pkt : π) :
    (NetworkServer.sendP enc cl cid pkt).logs = 0 := by
  simp only [NetworkServer.sendP, NetworkServer.send_rawP]
  split
  · split <;> rfl
  · rfl

theorem C8_stale_subscriber_no_crash_no_log (m : Messenger)
    (srv : NetworkServerM) (fid : Id) (payload : Bytes) (mode : SendMode)
    (convIds : Nat → Id) (c : Id) (hns : m.ns = some srv)
    (hc : c ∈ m.receivers) (hstale : c ∉ srv.clients) :
    ∃ results, m.call_client_fn_results fid payload mode convIds =
        some (results, 0) ∧
      some AETKind.NetworkError ∈ results := by
  have hne : m.receivers ≠ [] := by
    intro h; rw [h] at hc; exact absurd hc (List.not_mem_nil c)
  have hcc : srv.clients.contains c = false := by
    rcases Bool.eq_false_or_eq_true (srv.clients.contains c) with h | h
    · exact absurd (by simpa using h) hstale
    · exact h
  have hsends : m.call_client_fn fid payload mode convIds =
      some ((m.receivers.enum).map (fun ci =>
        ⟨ci.2, ⟨convIds ci.1, .ModMessage m.entity_id fid payload⟩, mode⟩)) := by
    rw [Messenger.call_client_fn, if_neg hne, hns]
  refine ⟨(((m.receivers.enum).map (fun ci =>
      (⟨ci.2, ⟨convIds ci.1, .ModMessage m.entity_id fid payload⟩,
        mode⟩ : Sent))).map (fun s =>
          (NetworkServer.sendP MsgServerPacket.serialize_bin srv.clients
            s.target s.packet).result)), ?_, ?_⟩
  · rw [Messenger.call_client_fn_results, hns, hsends]
    simp only [Option.map_some', Option.some.injEq, Prod.mk.injEq, true_and]
    apply List.sum_eq_zero
    intro x hx
    rcases List.mem_map.mp hx with ⟨s, hs, rfl⟩
    exact sendP_logs_zero MsgServerPacket.serialize_bin srv.clients
      s.target s.packet
  · have hc' : c ∈ m.receivers.enum.map Prod.snd := by
      rw [List.enum_map_snd]; exact hc
    rcases List.mem_map.mp hc' with ⟨ci, hci, hsnd⟩
    refine List.mem_map.mpr ⟨⟨ci.2, ⟨convIds ci.1,
      .ModMessage m.entity_id fid payload⟩, mode⟩,
      List.mem_map.mpr ⟨ci, hci, rfl⟩, ?_⟩
    have hnm : ci.2 ∉ srv.clients := by rw [hsnd]; exact hstale
    simp [NetworkServer.sendP, hnm]

theorem C8_stale_subscriber_witness :
    ((Messenger.mk (some ⟨[7]⟩) 0 1 [5]).ns = some ⟨[7]⟩) ∧
      (5 ∈ [5]) ∧ (5 ∉ [7]) ∧
      ∃ results, (Messenger.mk (some ⟨[7]⟩) 0 1 [5]).call_client_fn_results
          9 [1, 2] .Quick (fun _ => 0) = some (results, 0) ∧
        some AETKind.NetworkError ∈ results :=
  ⟨rfl, by decide, by decide,
    C8_stale_subscriber_no_crash_no_log (Messenger.mk (some ⟨[7]⟩) 0 1 [5])
      ⟨[7]⟩ 9 [1, 2] .Quick (fun _ => 0) 5 rfl (by decide) (by decide)⟩

/-! ## Receiver closures (`Messenger::register_receiver`,
messaging.rs lines 61-65) -/

/-- The closure `register_receiver` stores in `receiver_functions`: given
the raw payload bytes it runs `M::deserialize_bin(data).unwrap()` and
invokes the handler on the decoded value.  `decM` is the argument type's
decoder, `f` the handler (abstracted over its engine effect `κ`); `none`
models the panic of `.unwrap()` on bytes that do not decode as `M`. -/
def receiverClosure (decM : Bytes → Option (M × Bytes))
    (f : Id → Id → M → κ) : Id → Id → Bytes → Option κ :=
  fun eid sender data => (decM data).map (fun m => f eid sender m.1)

/-- The game loop's dispatch over the drained packets: each payload is fed
to the registered closure; a panic (`none`) aborts the loop, so later
packets are not processed.  Returns the number of packets processed. -/
def processPackets (handler : Bytes → Option Unit) : List Bytes → Option Nat
  | [] => some 0
  | d :: rest =>
    match handler d with
    | none => none
    | some _ => (processPackets handler rest).map (· + 1)

/-- C1 is violated by the code: a receiver registered for `M = String`
receives payload bytes `[]` (which do not decode as a string); the stored
closure panics (`deserialize_bin(data).unwrap()`), and dispatching the
batch `[[], encode "a"]` aborts before the second, well-formed packet —
there is no non-fatal error path. -/
theorem C1_decode_failure_panics :
    receiverClosure decStr (fun _ _ _ => ()) 0 0 [] = none ∧
      processPackets (receiverClosure decStr (fun _ _ _ => ()) 0 0)
        [[], encStr [97]] = none ∧
      processPackets (receiverClosure decStr (fun _ _ _ => ()) 0 0)
        [encStr [97]] = some 1 := by
  refine ⟨rfl, rfl, ?_⟩
  have hdec : decStr (encStr [97]) = some ([97], []) := decStr_append [97] [] (by decide)
  have h1 : receiverClosure decStr (fun _ _ _ => ()) 0 0 (encStr [97]) = some () := by
    rw [receiverClosure]
    rw [hdec]
    rfl
  simp [processPackets, h1]

/-! ## Inbox drain (`NetworkServer::queued_packets`, server
networking/mod.rs lines 60-64; `NetworkClient::queued_packets`, client
networking/mod.rs lines 67-71) -/

/-- `queued_packets`: `mem::swap` the shared `received` vector with a
fresh empty one and return the old contents.  First component: the
returned packets; second: the inbox afterwards. -/
def queued_packets (received : List α) : List α × List α :=
  (received, [])

/-- A receiver thread appending one decoded packet to the inbox. -/
def inbox_push (received : List α) (p : α) : List α :=
  received ++ [p]

theorem inbox_push_foldl (ps : List α) (acc : List α) :
    ps.foldl inbox_push acc = acc ++ ps := by
  induction ps generalizing acc with
  | nil => simp
  | cons p ps ih => simp [inbox_push, ih]

/-- C7: one drain returns everything enqueued since the previous drain, in
enqueue order, and leaves the inbox empty; a second drain with no
intervening enqueue returns the empty sequence. -/
theorem C7_drain_swap (inbox ps : List α) :
    queued_packets inbox = (inbox, []) ∧
      (queued_packets (ps.foldl inbox_push (queued_packets inbox).2)).1 = ps ∧
      (queued_packets (queued_packets inbox).2).1 = [] := by
  refine ⟨rfl, ?_, rfl⟩
  simp [queued_packets, inbox_push_foldl]

theorem C7_drain_swap_witness :
    queued_packets [1, 2] = ([1, 2], ([] : List Nat)) ∧
      (queued_packets (([3, 4] : List Nat).foldl inbox_push
        (queued_packets [1, 2]).2)).1 = [3, 4] ∧
      (queued_packets (queued_packets ([1, 2] : List Nat)).2).1 = [] :=
  C7_drain_swap [1, 2] [3, 4]

/-! ## World entity store (`src/server/src/ecs/mod.rs`) -/

/-- An entity; modelled from the spec: `ecs/entity.rs` is absent from
`src/`.  `modules` maps the module type key to the module instance (its
content opaque here); at most one instance per type key. -/
structure EntityM where
  entity_id : Id
  modules : List (Id × Nat)
deriving DecidableEq

/-- `Entity::get_module::<T>` — typed lookup by type key; modelled from
the spec: absence is a normal `None`, not an error. -/
def EntityM.get_module (e : EntityM) (t : Id) : Option Nat :=
  e.modules.lookup t

/-- `World` (ecs/mod.rs line 11); the `entites` (sic) `HashMap` modelled
as its association list, keys unique. -/
structure World where
  entites : List (Id × EntityM)

/-- `World::get_entity` (ecs/mod.rs line 40). -/
def World.get_entity (w : World) (id : Id) : Option EntityM :=
  w.entites.lookup id

/-- `World::mut_entity` (ecs/mod.rs line 44): same lookup, mutable
borrow. -/
def World.mut_entity (w : World) (id : Id) : Option EntityM :=
  w.entites.lookup id

/-- `World::remove_entity` (ecs/mod.rs line 36):
`self.entites.remove(id).is_some()`. -/
def World.remove_entity (w : World) (id : Id) : Bool × World :=
  ((w.entites.lookup id).isSome,
    ⟨w.entites.eraseP (fun e => e.1 == id)⟩)

/-- `World::get_module_of::<T>` (ecs/mod.rs line 48):
`self.entites.get(id)?.get_module()`. -/
def World.get_module_of (w : World) (id : Id) (t : Id) : Option Nat := do
  (← w.get_entity id).get_module t

theorem lookup_eq_none_of_not_key (l : List (Id × β)) (id : Id)
    (h : id ∉ l.map Prod.fst) : l.lookup id = none := by
  induction l with
  | nil => rfl
  | cons e l ih =>
    obtain ⟨k, v⟩ := e
    simp only [List.map_cons, List.mem_cons, not_or] at h
    have hb : (id == k) = false := beq_eq_false_iff_ne.mpr h.1
    simp [List.lookup, hb, ih h.2]

theorem lookup_eraseP_self (l : List (Id × β)) (id : Id)
    (hnd : (l.map Prod.fst).Nodup) :
    (l.eraseP (fun e => e.1 == id)).lookup id = none := by
  induction l with
  | nil => rfl
  | cons e l ih =>
    obtain ⟨k, v⟩ := e
    simp only [List.map_cons, List.nodup_cons] at hnd
    by_cases he : k = id
    · rw [List.eraseP_cons]
      have : (((k, v).1 == id) : Bool) = true := by simpa using he
      rw [this, cond_true]
      exact lookup_eq_none_of_not_key l id (he ▸ hnd.1)
    · rw [List.eraseP_cons]
      have hb : (((k, v).1 == id) : Bool) = false := by simpa using he
      rw [hb, cond_false]
      have hb2 : (id == k) = false := beq_eq_false_iff_ne.mpr (Ne.symm he)
      simp [List.lookup, hb2, ih hnd.2]

/-- C9: `remove_entity` returns `true` iff the entity was present and
leaves `get_entity` at `none` for that id; `mut_entity` and the typed
module lookup return `None` — not an error — when the entity or module is
absent. -/
theorem C9_world_lookups (w : World) (id t : Id)
    (hnd : (w.entites.map Prod.fst).Nodup) :
    ((w.remove_entity id).1 = true ↔ w.get_entity id ≠ none) ∧
      ((w.remove_entity id).2.get_entity id = none) ∧
      (w.get_entity id = none →
        w.mut_entity id = none ∧ w.get_module_of id t = none) ∧
      (∀ e, w.get_entity id = some e → e.get_module t = none →
        w.get_module_of id t = none) := by
  refine ⟨?_, ?_, fun h => ⟨h, ?_⟩, fun e he hm => ?_⟩
  · simp [World.remove_entity, World.get_entity, Option.isSome_iff_ne_none]
  · exact lookup_eraseP_self w.entites id hnd
  · rw [World.get_module_of, h]
    rfl
  · simp [World.get_module_of, he, hm]

theorem C9_world_lookups_witness :
    ((([(1, EntityM.mk 1 [(10, 99)]), (2, EntityM.mk 2 [])] :
        List (Id × EntityM)).map Prod.fst).Nodup) ∧
      (((World.mk [(1, EntityM.mk 1 [(10, 99)]),
          (2, EntityM.mk 2 [])]).remove_entity 1).1 = true ↔
        (World.mk [(1, EntityM.mk 1 [(10, 99)]),
          (2, EntityM.mk 2 [])]).get_entity 1 ≠ none) ∧
      ((World.mk [(1, EntityM.mk 1 [(10, 99)]),
          (2, EntityM.mk 2 [])]).remove_entity 1).2.get_entity 1 = none :=
  have h := C9_world_lookups
    (World.mk [(1, EntityM.mk 1 [(10, 99)]), (2, EntityM.mk 2 [])]) 1 10
    (by decide)
  ⟨by decide, h.1, h.2.1⟩

end Aeonetica
